import Mathlib

/-!
Verification development for the OpenAPI specification synthesis pipeline of
`next-rest-framework` (file `packages/next-rest-framework/src/utils/open-api.ts`).

The JavaScript data is shallowly embedded as a JSON value type.  Objects are
association lists that keep insertion order, as JavaScript objects do; all
object-building operations below use the JavaScript assignment semantics
(update the existing key in place, else append at the end), so values built by
the model never hold duplicate keys, exactly like real JavaScript objects.
-/

set_option autoImplicit false

namespace OpenApi

mutual

inductive Json where
  | str (s : String)
  | num (n : Int)
  | bool (b : Bool)
  | null
  | arr (items : JsonArr)
  | obj (fields : JsonObj)
  deriving DecidableEq

inductive JsonArr where
  | nil
  | cons (head : Json) (tail : JsonArr)
  deriving DecidableEq

inductive JsonObj where
  | nil
  | cons (key : String) (val : Json) (tail : JsonObj)
  deriving DecidableEq

end

/-- Build a `JsonArr` from a list, for readable literals. -/
def JsonArr.ofList : List Json → JsonArr
  | [] => .nil
  | x :: xs => .cons x (JsonArr.ofList xs)

/-- Build a `JsonObj` from an association list, for readable literals. -/
def JsonObj.ofList : List (String × Json) → JsonObj
  | [] => .nil
  | (k, v) :: xs => .cons k v (JsonObj.ofList xs)

/-- First value stored under key `k` (JavaScript property lookup). -/
def lookupJ : JsonObj → String → Option Json
  | .nil, _ => none
  | .cons k' v t, k => if k' = k then some v else lookupJ t k

/-- JavaScript property assignment `o[k] = v`: update the first occurrence of
`k` in place keeping its position, else append the new entry at the end. -/
def jsSet : JsonObj → String → Json → JsonObj
  | .nil, k, v => .cons k v .nil
  | .cons k' v' t, k, v => if k' = k then .cons k' v t else .cons k' v' (jsSet t k v)

/-- Keys of an object, in order. -/
def keysObj : JsonObj → List String
  | .nil => []
  | .cons k _ t => k :: keysObj t

/-- Number of entries of an object (`Object.keys(o).length`). -/
def lenObj : JsonObj → Nat
  | .nil => 0
  | .cons _ _ t => lenObj t + 1

/-- The own enumerable entries a JavaScript spread `{...d, ...v}` copies out of
`v`: objects contribute their entries, arrays and strings contribute indexed
entries, primitives contribute nothing. -/
def spreadEntries : Json → List (String × Json)
  | .obj o => objEntries o
  | .arr l => arrEntries 0 l
  | .str s => strEntries 0 s.toList
  | _ => []
where
  objEntries : JsonObj → List (String × Json)
    | .nil => []
    | .cons k v t => (k, v) :: objEntries t
  arrEntries : Nat → JsonArr → List (String × Json)
    | _, .nil => []
    | i, .cons x t => (toString i, x) :: arrEntries (i + 1) t
  strEntries : Nat → List Char → List (String × Json)
    | _, [] => []
    | i, c :: t => (toString i, Json.str (String.mk [c])) :: strEntries (i + 1) t

/-- JavaScript object spread `{...d, ...v}`. -/
def spreadInto (d : JsonObj) (v : Json) : JsonObj :=
  (spreadEntries v).foldl (fun acc kv => jsSet acc kv.1 kv.2) d

/-- Spread of an optional value (`{...x}` where `x` may be `undefined`). -/
def spreadIntoOpt (d : JsonObj) : Option Json → JsonObj
  | none => d
  | some v => spreadInto d v

mutual

/-- Model of `lodash.merge(d, s)` (value semantics): objects merge key-wise with the
source recursively merged over the destination, arrays merge index-wise, and
any other source value replaces the destination. -/
def mergeJson : Json → Json → Json
  | .obj d, .obj s => .obj (mergeInto d s)
  | .arr d, .arr s => .arr (mergeArrs d s)
  | _, s => s

/-- Merge every entry of the source object `s` into the destination `d`. -/
def mergeInto (d : JsonObj) : JsonObj → JsonObj
  | .nil => d
  | .cons k v rest =>
    let newV := match lookupJ d k with
      | some old => mergeJson old v
      | none => v
    mergeInto (jsSet d k newV) rest

/-- Index-wise merge of two arrays, the way `lodash.merge` merges arrays. -/
def mergeArrs : JsonArr → JsonArr → JsonArr
  | d, .nil => d
  | .nil, s => s
  | .cons x xs, .cons y ys => .cons (mergeJson x y) (mergeArrs xs ys)

end

/-- Model of `lodash.merge(d, s)` where the destination may be `undefined`:
lodash boxes `undefined` into a fresh empty object first. -/
def mergeOptDest : Option Json → Json → Json
  | none, s => mergeJson (.obj .nil) s
  | some d, s => mergeJson d s

/-- Model of `lodash.merge(d, s)` where the source may be `undefined`:
falsy sources are skipped and the destination is returned unchanged. -/
def mergeOptSrc (d : Json) : Option Json → Json
  | none => d
  | some s => mergeJson d s

mutual

/-- Model of `lodash.isEqualWith(a, b)` with no customizer, i.e. `lodash.isEqual`:
deep structural equality, insensitive to object key order (objects compare by
key count plus per-key lookup) but sensitive to array element order. -/
def isEqualJson : Json → Json → Bool
  | .str a, .str b => a = b
  | .num a, .num b => a = b
  | .bool a, .bool b => a = b
  | .null, .null => true
  | .arr a, .arr b => isEqualArrs a b
  | .obj a, .obj b => lenObj a = lenObj b && isEqualEntries a b
  | _, _ => false

/-- Element-wise equality of arrays (order sensitive, like lodash). -/
def isEqualArrs : JsonArr → JsonArr → Bool
  | .nil, .nil => true
  | .cons x xs, .cons y ys => isEqualJson x y && isEqualArrs xs ys
  | _, _ => false

/-- Every entry of `a` is matched by an equal entry of `b` (looked up by key). -/
def isEqualEntries : JsonObj → JsonObj → Bool
  | .nil, _ => true
  | .cons k v rest, b =>
    (match lookupJ b k with
     | some w => isEqualJson v w
     | none => false)
    && isEqualEntries rest b

end

/-- Model of `lodash.isEqualWith(a, b)` where `a` is `global.openApiSpec`, possibly
still `undefined`; `undefined` is never equal to an object. -/
def isEqualOpt : Option Json → Json → Bool
  | none, _ => false
  | some a, b => isEqualJson a b

mutual

/-- Well-formedness of a JSON value as a JavaScript runtime value: no object
anywhere in the tree has two entries with the same key.  Every value that
actually exists in a JavaScript heap satisfies this. -/
def noDup : Json → Bool
  | .obj o => noDupObj o
  | .arr l => noDupArr l
  | _ => true

/-- Well-formedness of every element of an array. -/
def noDupArr : JsonArr → Bool
  | .nil => true
  | .cons x t => noDup x && noDupArr t

/-- Keys pairwise distinct and every stored value well-formed. -/
def noDupObj : JsonObj → Bool
  | .nil => true
  | .cons k v t => (lookupJ t k).isNone && noDup v && noDupObj t

end

/-- Append two arrays (the JavaScript spread `[...a, ...b]`). -/
def appendArr : JsonArr → JsonArr → JsonArr
  | .nil, b => b
  | .cons x t, b => .cons x (appendArr t b)

/-! ## Path synthesis (`getPathsFromMethodHandlers`, open-api.ts lines 287-397)

The schema-conversion collaborators `getJsonSchema` and `getSchemaKeys`
(module `./schemas`, not part of the synthesis core) are treated as black
boxes: the definitions below are parameterized by functions
`gjs : σ → Json` (schema to JSON Schema) and `gsk : σ → List String`
(schema to key list) over an abstract schema type `σ`. -/

/-- Modelled from the spec: the fixed unexpected-error description
`DEFAULT_ERRORS.unexpectedError` lives in the constants module, which is not
under `src/`; the spec only fixes that it is one constant string. -/
def unexpectedErrorDescription : String := "An unknown error occurred."

/-- Modelled from the spec: `OPEN_API_VERSION` lives in the constants module,
which is not under `src/`; the spec fixes OpenAPI 3.1. -/
def OPEN_API_VERSION : String := "3.1.0"

/-- The module constant `defaultResponse` (open-api.ts lines 287-299): the module-level catch-all
error response object, with the fixed description and a JSON Schema for an
object with a string `message` property. -/
def defaultResponse : Json :=
  .obj (.cons "description" (.str unexpectedErrorDescription)
    (.cons "content" (.obj (.cons "application/json"
      (.obj (.cons "schema" (.obj (.cons "type" (.str "object")
        (.cons "properties" (.obj (.cons "message"
          (.obj (.cons "type" (.str "string") .nil)) .nil)) .nil))) .nil)) .nil)) .nil))

/-- One entry of a method handler's `output` list. -/
structure OutputEntry (σ : Type) where
  status : Nat
  contentType : String
  schema : σ

/-- A method handler's `input` declaration. -/
structure InputDef (σ : Type) where
  body : Option σ
  contentType : Option String
  query : Option σ

/-- A method handler declaration bundle (types/`MethodHandler`). -/
structure MethodHandler (σ : Type) where
  input : Option (InputDef σ)
  output : Option (List (OutputEntry σ))
  tags : Option (List String)
  openApiSpecOverrides : Option Json

/-- The `DefineEndpointsParams` bundle: one optional handler per HTTP method of
the `ValidMethod` enum, plus the route-level overrides object.  Modelled from
the spec: the `ValidMethod` enum lives in the constants module (not under
`src/`); the spec only fixes that it is the enum of supported HTTP methods. -/
structure DefineEndpointsParams (σ : Type) where
  GET : Option (MethodHandler σ) := none
  PUT : Option (MethodHandler σ) := none
  POST : Option (MethodHandler σ) := none
  DELETE : Option (MethodHandler σ) := none
  OPTIONS : Option (MethodHandler σ) := none
  HEAD : Option (MethodHandler σ) := none
  PATCH : Option (MethodHandler σ) := none
  openApiSpecOverrides : Option Json := none

/-- Model of `Object.keys(methodHandlers).filter(isValidMethod)` with each method name
lowercased, paired with its handler.  JavaScript enumerates the keys in the
order the user's object literal declared them, which the model cannot know; a
fixed enum order is used, and no theorem below depends on this order. -/
def presentMethods {σ : Type} (mh : DefineEndpointsParams σ) :
    List (String × MethodHandler σ) :=
  [("get", mh.GET), ("put", mh.PUT), ("post", mh.POST), ("delete", mh.DELETE),
   ("options", mh.OPTIONS), ("head", mh.HEAD), ("patch", mh.PATCH)].filterMap
    fun p => p.2.map fun h => (p.1, h)

/-- The per-entry response object `{ content: { [contentType]: { schema } } }`
built by the `output.reduce` callback (lines 341-356). -/
def respContentObj {σ : Type} (gjs : σ → Json) (e : OutputEntry σ) : Json :=
  .obj (.cons "content" (.obj (.cons e.contentType
    (.obj (.cons "schema" (gjs e.schema) .nil)) .nil)) .nil)

/-- Model of `output.reduce((obj, {status, contentType, schema}) =>
Object.assign(obj, { [status]: ... }), {})` (lines 341-356): `Object.assign`
replaces the whole entry stored under `status`, so a later entry with the same
status discards an earlier one even when their content types differ. -/
def generatedResponses {σ : Type} (gjs : σ → Json) (out : List (OutputEntry σ)) : JsonObj :=
  out.foldl (fun acc e => jsSet acc (toString e.status) (respContentObj gjs e)) .nil

mutual

/-- Scanner for `route.match(/{([^}]+)}/g)` (line 369), outside a brace pair:
find the next `{` and switch to the inside scanner. -/
def scanBraceParams : List Char → List String
  | [] => []
  | c :: rest => if c = '{' then scanInsideBrace [] rest else scanBraceParams rest

/-- Inside a candidate match: accumulate the non-`}` characters; on a closing
`}` emit the accumulated name when nonempty ( `[^}]+` needs at least one). -/
def scanInsideBrace (acc : List Char) : List Char → List String
  | [] => []
  | c :: rest =>
    if c = '}' then
      if acc.isEmpty then scanBraceParams rest
      else String.mk acc.reverse :: scanBraceParams rest
    else scanInsideBrace (c :: acc) rest

end

/-- Model of `param.replace(/[{}]/g, '')` applied to a matched `{...}` group: the model
scanner already dropped the outer braces, so only inner braces remain. -/
def stripBraces (p : String) : String :=
  String.mk (p.toList.filter fun c => c ≠ '{' && c ≠ '}')

/-- A derived path parameter `{ name, in: 'path', required: true }` (371-375). -/
def pathParamObj (p : String) : Json :=
  .obj (.cons "name" (.str (stripBraces p)) (.cons "in" (.str "path")
    (.cons "required" (.bool true) .nil)))

/-- A derived query parameter `{ name: key, in: 'query' }` (lines 378-388). -/
def queryParamObj (key : String) : Json :=
  .obj (.cons "name" (.str key) (.cons "in" (.str "query") .nil))

/-- The `generatedOperationObject` of one method handler before the final
per-operation override merge (lines 329-388): request body content, declared
responses plus the shared `default` response (the current module-level
`defaultResponse` value `dflt`), path parameters scanned from the route, and
query parameters from the query schema keys.  A JavaScript object literal
gives the `tags` key the value `undefined` when no tags are declared; an
`undefined`-valued key is unobservable through JSON serialization and through
every operation modelled here, so the model omits the key instead. -/
def genOperationObject {σ : Type} (gjs : σ → Json) (gsk : σ → List String)
    (dflt : Json) (route : String) (h : MethodHandler σ) : JsonObj :=
  let requestBodyContent : JsonObj :=
    match h.input with
    | some inp =>
      match inp.body, inp.contentType with
      | some b, some ct => .cons ct (.obj (.cons "schema" (gjs b) .nil)) .nil
      | _, _ => .nil
    | none => .nil
  let genResps : JsonObj :=
    match h.output with
    | some out => generatedResponses gjs out
    | none => .nil
  let responses : JsonObj := jsSet genResps "default" dflt
  let base : JsonObj :=
    let tailPart : JsonObj :=
      .cons "requestBody" (.obj (.cons "content" (.obj requestBodyContent) .nil))
        (.cons "responses" (.obj responses) .nil)
    match h.tags with
    | some ts => .cons "tags" (.arr (JsonArr.ofList (ts.map Json.str))) tailPart
    | none => tailPart
  let pathParams := scanBraceParams route.toList
  let base2 : JsonObj :=
    if pathParams.isEmpty then base
    else jsSet base "parameters" (.arr (JsonArr.ofList (pathParams.map pathParamObj)))
  match h.input with
  | some inp =>
    match inp.query with
    | some q =>
      let existing : JsonArr :=
        match lookupJ base2 "parameters" with
        | some (.arr l) => l
        | _ => .nil
      jsSet base2 "parameters"
        (.arr (appendArr existing (JsonArr.ofList ((gsk q).map queryParamObj))))
    | none => base2
  | none => base2

/-- The in-place effect of `merge(generatedOperationObject, openApiSpecOverrides)`
(line 392) on the module-level `defaultResponse`: the generated operation's
`responses.default` entry is a reference to that shared module object, so when
the method-level overrides carry an object under `responses.default`, lodash
merges it into the shared object destructively; any other shape only replaces
the reference inside the fresh operation and leaves the module object alone. -/
def defaultAfterMerge (dflt : Json) : Option Json → Json
  | some (.obj ovr) =>
    (match lookupJ ovr "responses" with
     | some (.obj ro) =>
       (match lookupJ ro "default" with
        | some (.obj dv) => mergeJson dflt (.obj dv)
        | _ => dflt)
     | _ => dflt)
  | _ => dflt

/-- One method's synthesized operation together with the module-level
`defaultResponse` state after the override merge. -/
def synthMethod {σ : Type} (gjs : σ → Json) (gsk : σ → List String)
    (dflt : Json) (route : String) (h : MethodHandler σ) : Json × Json :=
  let genOp := .obj (genOperationObject gjs gsk dflt route h)
  (mergeOptSrc genOp h.openApiSpecOverrides, defaultAfterMerge dflt h.openApiSpecOverrides)

/-- Result of `getPathsFromMethodHandlers`: the returned `paths` object and
the module-level `defaultResponse` value after the call. -/
structure SynthResult where
  paths : JsonObj
  dflt : Json

/-- Model of `getPathsFromMethodHandlers` (lines 304-397), with the module-level
`defaultResponse` state `dflt0` threaded explicitly: start from
`paths[route] = { ...openApiSpecOverrides }`, then for each declared method set
`paths[route] = { ...paths[route], [method]: merge(generatedOperationObject,
openApiSpecOverrides) }`. -/
def getPathsFromMethodHandlers {σ : Type} (gjs : σ → Json) (gsk : σ → List String)
    (dflt0 : Json) (methodHandlers : DefineEndpointsParams σ) (route : String) :
    SynthResult :=
  let paths0 : JsonObj :=
    jsSet .nil route (.obj (spreadIntoOpt .nil methodHandlers.openApiSpecOverrides))
  (presentMethods methodHandlers).foldl
    (fun acc m =>
      let step := synthMethod gjs gsk acc.dflt route m.2
      let cur : JsonObj :=
        match lookupJ acc.paths route with
        | some (.obj o) => o
        | _ => .nil
      ⟨jsSet acc.paths route (.obj (jsSet (spreadInto .nil (.obj cur)) m.1 step.1)),
       step.2⟩)
    ⟨paths0, dflt0⟩

/-! ## Spec aggregation (`generatePaths`, open-api.ts lines 139-228)

A probe of one discovered route either throws (network error, abort after the
200ms timeout, or a JSON parse error) — the `catch` swallows it — or yields a
parsed JSON body with a status.  The fragments are folded into one `paths`
object; the real code merges in the completion order of the concurrent
probes, which the model receives as the order of the outcome list. -/

inductive ProbeOutcome where
  | failure
  | response (status : Nat) (body : Json)

/-- The fragment a probe contributes: the body's `nextRestFrameworkPaths`
field, but only for a status-200 response whose body is an object carrying
that field (`res.status === 200 && isPathItemObject(data)`, lines 210-220). -/
def fragmentOf : ProbeOutcome → Option Json
  | .failure => none
  | .response status body =>
    match body with
    | .obj o => if status = 200 then lookupJ o "nextRestFrameworkPaths" else none
    | _ => none

/-- One probe's effect on the accumulated paths:
`paths = { ...paths, ...data.nextRestFrameworkPaths }` (line 219). -/
def probeStep (paths : JsonObj) (o : ProbeOutcome) : JsonObj :=
  match fragmentOf o with
  | some frag => spreadInto (spreadInto .nil (.obj paths)) frag
  | none => paths

/-- Model of `generatePaths` restricted to its merging core: fold every probe outcome
into an initially empty paths object. -/
def generatePathsModel (outcomes : List ProbeOutcome) : JsonObj :=
  outcomes.foldl probeStep .nil

/-! ## Route-path normalization (`generatePaths`, open-api.ts lines 171-180)

`String.prototype.replace` with a string pattern replaces only the first
occurrence; the `/\\/g` regex replaces every backslash. -/

/-- JavaScript `s.replace(pat, rep)` for a nonempty string pattern: replace
the first occurrence of `pat`, if any. -/
def replaceFirst (s pat rep : List Char) : List Char :=
  match s with
  | [] => []
  | c :: t => if pat.isPrefixOf (c :: t) then rep ++ (c :: t).drop pat.length
              else c :: replaceFirst t pat rep

/-- The route-file-to-URL-pattern derivation (lines 173-180):
`` `/api/${file}` `` then `.replace(/\\/g, '/')`, `.replace('/index', '')`,
`.replace('[', '{')`, `.replace(']', '}')`, `.replace('.ts', '')`. -/
def deriveUrlPattern (file : List Char) : List Char :=
  let s0 := "/api/".toList ++ file
  let s1 := s0.map fun c => if c = '\\' then '/' else c
  let s2 := replaceFirst s1 "/index".toList []
  let s3 := replaceFirst s2 ['['] ['{']
  let s4 := replaceFirst s3 [']'] ['}']
  replaceFirst s4 ".ts".toList []

/-! ## Spec cache/store (`getOrCreateOpenApiSpec`, open-api.ts lines 231-285) -/

/-- The configuration object (`NextRestFrameworkConfig`), restricted to the
fields `getOrCreateOpenApiSpec` and its callees consume. -/
structure Config where
  apiRoutesPath : Option String := none
  openApiJsonPath : Option String := none
  openApiYamlPath : Option String := none
  swaggerUiPath : Option String := none
  openApiSpecOverrides : Option Json := none
  deriving DecidableEq

/-- The process-wide mutable state: `global.openApiSpec` and
`global.apiSpecGeneratedLogged`. -/
structure GlobalState where
  openApiSpec : Option Json := none
  apiSpecGeneratedLogged : Bool := false
  deriving DecidableEq

/-- The `console.info` lines the pass can emit. -/
inductive LogLine where
  | noSpecFound
  | specChanged
  | generated
  | upToDate
  deriving DecidableEq

/-- Everything observable about one `getOrCreateOpenApiSpec` pass: the config
object after the call (lodash `merge` mutates it, see `configAfterPass`), the
global state, the `openapi.json` content (`none` = absent or unreadable), a
write-occurred flag, the log lines, and the returned document. -/
structure PassResult where
  config : Config
  state : GlobalState
  fs : Option Json
  wrote : Bool
  logs : List LogLine
  ret : Option Json

/-- The expression `config.openApiSpecOverrides?.paths`. -/
def overridePaths (cfg : Config) : Option Json :=
  match cfg.openApiSpecOverrides with
  | some (.obj o) => lookupJ o "paths"
  | _ => none

/-- The `newSpec` object (lines 249-253):
`{ ...config.openApiSpecOverrides, openapi: OPEN_API_VERSION,
paths: merge(config.openApiSpecOverrides?.paths, paths) }`.
When the overrides carry no `paths` object, lodash boxes the `undefined`
destination into a fresh object, so the generated paths are copied. -/
def mkNewSpec (cfg : Config) (paths : JsonObj) : Json :=
  let base := spreadIntoOpt .nil cfg.openApiSpecOverrides
  let s1 := jsSet base "openapi" (.str OPEN_API_VERSION)
  .obj (jsSet s1 "paths" (mergeOptDest (overridePaths cfg) (.obj paths)))

/-- The in-place mutation `merge(config.openApiSpecOverrides?.paths, paths)`
performs on the configuration: when the overrides carry an object under
`paths`, lodash merges the generated paths into that very object.  (A
non-object truthy `paths` override is excluded by the TypeScript type
`OpenAPIV3_1.PathsObject` and not modelled.) -/
def configAfterPass (cfg : Config) (paths : JsonObj) : Config :=
  match cfg.openApiSpecOverrides with
  | some (.obj o) =>
    (match lookupJ o "paths" with
     | some (.obj op) =>
       let newOvr : Json := .obj (jsSet o "paths" (mergeJson (.obj op) (.obj paths)))
       { cfg with openApiSpecOverrides := some newOvr }
     | _ => cfg)
  | _ => cfg

/-- Model of `getOrCreateOpenApiSpec` (lines 231-285).  The pass always starts by
attempting to read `openapi.json` into `global.openApiSpec` (the `catch`
swallows a failed read).  In production mode that is all.  In development mode
the probe results are aggregated, `newSpec` is built, and the file is
rewritten exactly when `isEqualWith` finds the cached document different; the
persisted JSON round-trips the document unchanged (the model stores no
`undefined`-valued keys, the only thing `JSON.stringify` drops). -/
def getOrCreateOpenApiSpec (isProd : Bool) (cfg : Config)
    (outcomes : List ProbeOutcome) (fs : Option Json) (st : GlobalState) :
    PassResult :=
  let st1 : GlobalState :=
    match fs with
    | some j => { st with openApiSpec := some j }
    | none => st
  let specFileFound : Bool := fs.isSome
  if isProd then
    { config := cfg, state := st1, fs := fs, wrote := false, logs := [],
      ret := st1.openApiSpec }
  else
    let paths := generatePathsModel outcomes
    let newSpec := mkNewSpec cfg paths
    let cfg' := configAfterPass cfg paths
    if isEqualOpt st1.openApiSpec newSpec then
      { config := cfg',
        state := { openApiSpec := st1.openApiSpec, apiSpecGeneratedLogged := true },
        fs := fs, wrote := false,
        logs := if st1.apiSpecGeneratedLogged then [] else [LogLine.upToDate],
        ret := st1.openApiSpec }
    else
      let changeLine := if specFileFound then [LogLine.specChanged] else [LogLine.noSpecFound]
      let doneLine := if st1.apiSpecGeneratedLogged then [] else [LogLine.generated]
      { config := cfg',
        state := { openApiSpec := some newSpec, apiSpecGeneratedLogged := true },
        fs := some newSpec, wrote := true,
        logs := changeLine ++ doneLine,
        ret := some newSpec }

/-! ## Derived notions used by the theorems -/

/-- Property access `j[k]` on a JSON value: `none` unless `j` is an object
carrying the key. -/
def getJ (j : Json) (k : String) : Option Json :=
  match j with
  | .obj o => lookupJ o k
  | _ => none

/-- Property access chained through an optional value. -/
def getJO (o : Option Json) (k : String) : Option Json :=
  match o with
  | some j => getJ j k
  | none => none

/-- The last element of a list satisfying `p`, if any. -/
def lastWith {α : Type} (p : α → Bool) : List α → Option α
  | [] => none
  | x :: t =>
    match lastWith p t with
    | some y => some y
    | none => if p x then some x else none

/-- Keys pairwise distinct at the top level only. -/
def topNoDupObj : JsonObj → Bool
  | .nil => true
  | .cons k _ t => (lookupJ t k).isNone && topNoDupObj t

/-- Membership: `(k, v)` is one of the entries of the object. -/
def EntryMem (k : String) (v : Json) : JsonObj → Prop
  | .nil => False
  | .cons k' v' t => (k' = k ∧ v' = v) ∨ EntryMem k v t

/-- Does a method-level overrides object carry an object under
`responses.default` (the shape whose merge mutates the shared
`defaultResponse`)? -/
def touchesDefault : Option Json → Bool
  | some (.obj ovr) =>
    (match lookupJ ovr "responses" with
     | some (.obj ro) =>
       (match lookupJ ro "default" with
        | some (.obj _) => true
        | _ => false)
     | _ => false)
  | _ => false

/-- The configuration overrides are a well-formed JavaScript object (or
absent), as every runtime configuration value is. -/
def configWF (cfg : Config) : Bool :=
  match cfg.openApiSpecOverrides with
  | none => true
  | some (.obj o) => noDupObj o
  | some _ => false

/-- Absence: `pat` does not occur at any position strictly before `n` in `s`. -/
def noOccBeforeB (pat s : List Char) : Nat → Bool
  | 0 => true
  | n + 1 => noOccBeforeB pat s n && !(pat.isPrefixOf (s.drop n))

/-! ## Lemmas about the object operations -/

/-- Induction on the entry spine of an object (the `induction` tactic cannot
use the mutual recursor directly). -/
theorem JsonObj.entrySpineInduction {motive : JsonObj → Prop} (nil : motive .nil)
    (cons : ∀ k v t, motive t → motive (.cons k v t)) : ∀ o, motive o
  | .nil => nil
  | .cons k v t => cons k v t (entrySpineInduction nil cons t)

/-- Induction on the spine of an array. -/
theorem JsonArr.itemSpineInduction {motive : JsonArr → Prop} (nil : motive .nil)
    (cons : ∀ x t, motive t → motive (.cons x t)) : ∀ l, motive l
  | .nil => nil
  | .cons x t => cons x t (itemSpineInduction nil cons t)

theorem spreadEntries_obj (p : JsonObj) :
    spreadEntries (.obj p) = spreadEntries.objEntries p := rfl

theorem lookupJ_jsSet (o : JsonObj) (k : String) (v : Json) (k2 : String) :
    lookupJ (jsSet o k v) k2 = if k = k2 then some v else lookupJ o k2 := by
  induction o using JsonObj.entrySpineInduction with
  | nil => simp [jsSet, lookupJ]
  | cons k' v' t ih =>
    by_cases h : k' = k
    · subst h
      by_cases h2 : k' = k2
      · subst h2
        simp [jsSet, lookupJ]
      · simp [jsSet, lookupJ, h2]
    · by_cases h2 : k' = k2
      · subst h2
        have hne : ¬ k = k' := fun e => h e.symm
        simp [jsSet, lookupJ, h, hne]
      · simp [jsSet, lookupJ, h, h2, ih]

theorem lookupJ_jsSet_same (o : JsonObj) (k : String) (v : Json) :
    lookupJ (jsSet o k v) k = some v := by
  rw [lookupJ_jsSet, if_pos rfl]

theorem lookupJ_jsSet_ne (o : JsonObj) (k : String) (v : Json) (k2 : String)
    (h : k ≠ k2) : lookupJ (jsSet o k v) k2 = lookupJ o k2 := by
  rw [lookupJ_jsSet, if_neg h]

theorem jsSet_lookup_self (o : JsonObj) (k : String) (v : Json)
    (h : lookupJ o k = some v) : jsSet o k v = o := by
  induction o using JsonObj.entrySpineInduction with
  | nil => simp [lookupJ] at h
  | cons k' v' t ih =>
    by_cases hk : k' = k
    · subst hk
      simp only [lookupJ, if_pos rfl, Option.some.injEq, if_true, eq_self_iff_true] at h
      subst h
      simp [jsSet]
    · simp only [lookupJ, if_neg hk] at h
      simp [jsSet, hk, ih h]

theorem jsSet_jsSet_same (o : JsonObj) (k : String) (v1 v2 : Json) :
    jsSet (jsSet o k v1) k v2 = jsSet o k v2 := by
  induction o using JsonObj.entrySpineInduction with
  | nil => simp [jsSet]
  | cons k' v' t ih =>
    by_cases hk : k' = k
    · subst hk
      simp [jsSet]
    · simp [jsSet, if_neg hk, ih]

theorem jsSet_comm_mem (o : JsonObj) (k1 : String) (v1 : Json) (k2 : String)
    (v2 : Json) (hmem : (lookupJ o k1).isSome) (hne : k1 ≠ k2) :
    jsSet (jsSet o k1 v1) k2 v2 = jsSet (jsSet o k2 v2) k1 v1 := by
  induction o using JsonObj.entrySpineInduction with
  | nil => simp [lookupJ] at hmem
  | cons k' v' t ih =>
    by_cases h1 : k' = k1
    · subst h1
      have hne2 : ¬ k' = k2 := fun e => hne (e ▸ rfl)
      simp [jsSet, hne2, hne]
    · by_cases h2 : k' = k2
      · subst h2
        have h1' : ¬ k1 = k' := fun e => h1 e.symm
        simp [jsSet, h1, h1']
      · simp only [lookupJ, if_neg h1] at hmem
        simp [jsSet, h1, h2, ih hmem]

theorem keysObj_jsSet_mem (o : JsonObj) (k : String) (v : Json)
    (h : (lookupJ o k).isSome) : keysObj (jsSet o k v) = keysObj o := by
  induction o using JsonObj.entrySpineInduction with
  | nil => simp [lookupJ] at h
  | cons k' v' t ih =>
    by_cases hk : k' = k
    · subst hk
      simp [jsSet, keysObj]
    · simp only [lookupJ, if_neg hk] at h
      simp [jsSet, hk, keysObj, ih h]

theorem topNoDupObj_jsSet (o : JsonObj) (k : String) (v : Json)
    (h : topNoDupObj o = true) : topNoDupObj (jsSet o k v) = true := by
  induction o using JsonObj.entrySpineInduction with
  | nil => simp [jsSet, topNoDupObj, lookupJ]
  | cons k' v' t ih =>
    simp only [topNoDupObj, Bool.and_eq_true] at h
    by_cases hk : k' = k
    · subst hk
      simp [jsSet, topNoDupObj, h.1, h.2]
    · simp only [jsSet, if_neg hk, topNoDupObj, Bool.and_eq_true]
      refine ⟨?_, ih h.2⟩
      have hk' : k ≠ k' := fun e => hk e.symm
      rw [lookupJ_jsSet_ne _ _ _ _ hk']
      exact h.1

/-- Folding JavaScript assignments over an entry list: the value finally
stored under `k` is the last pushed entry with key `k`, else whatever the
initial object stored. -/
theorem lookupJ_foldl_jsSet {α : Type} (key : α → String) (val : α → Json)
    (l : List α) (init : JsonObj) (k : String) :
    lookupJ (l.foldl (fun acc e => jsSet acc (key e) (val e)) init) k =
      (match lastWith (fun e => key e == k) l with
       | some e => some (val e)
       | none => lookupJ init k) := by
  induction l generalizing init with
  | nil => simp [lastWith]
  | cons x t ih =>
    simp only [List.foldl_cons, ih, lastWith]
    match hlast : lastWith (fun e => key e == k) t with
    | some y => simp
    | none =>
      by_cases hx : key x = k
      · simp [hx, lookupJ_jsSet_same]
      · simp [hx, lookupJ_jsSet_ne _ _ _ _ hx]

theorem topNoDupObj_foldl_jsSet {α : Type} (key : α → String) (val : α → Json)
    (l : List α) (init : JsonObj) (h : topNoDupObj init = true) :
    topNoDupObj (l.foldl (fun acc e => jsSet acc (key e) (val e)) init) = true := by
  induction l generalizing init with
  | nil => exact h
  | cons x t ih => exact ih _ (topNoDupObj_jsSet _ _ _ h)

/-- With pairwise-distinct keys, the last entry with key `k` is the first. -/
theorem lastWith_spreadEntries_eq_lookupJ (p : JsonObj) (k : String)
    (h : topNoDupObj p = true) :
    (match lastWith (fun e : String × Json => e.1 == k) (spreadEntries.objEntries p) with
     | some e => some e.2
     | none => none) = lookupJ p k := by
  induction p using JsonObj.entrySpineInduction with
  | nil => simp [spreadEntries.objEntries, lastWith, lookupJ]
  | cons k' v t ih =>
    simp only [topNoDupObj, Bool.and_eq_true] at h
    simp only [spreadEntries.objEntries, lastWith, lookupJ]
    match hlast : lastWith (fun e : String × Json => e.1 == k) (spreadEntries.objEntries t) with
    | some y =>
      have := ih h.2
      rw [hlast] at this
      by_cases hk : k' = k
      · subst hk
        rw [Option.isNone_iff_eq_none] at h
        rw [← this] at h
        simp at h
      · simp [if_neg hk, ← this]
    | none =>
      have := ih h.2
      rw [hlast] at this
      by_cases hk : k' = k
      · simp [hk]
      · simp [hk, ← this]

theorem lookupJ_spreadInto_obj (d : JsonObj) (p : JsonObj) (k : String)
    (h : topNoDupObj p = true) :
    lookupJ (spreadInto d (.obj p)) k =
      (match lookupJ p k with
       | some v => some v
       | none => lookupJ d k) := by
  have hf := lookupJ_foldl_jsSet (fun e : String × Json => e.1)
    (fun e : String × Json => e.2) (spreadEntries (.obj p)) d k
  have hl := lastWith_spreadEntries_eq_lookupJ p k h
  simp only [spreadInto]
  rw [hf, spreadEntries_obj]
  cases hlast : lastWith (fun e : String × Json => e.1 == k) (spreadEntries.objEntries p) with
  | some y =>
    rw [hlast] at hl
    simp only at hl
    rw [← hl]
  | none =>
    rw [hlast] at hl
    simp only at hl
    rw [← hl]

/-! ## Append and spread-identity lemmas -/

/-- Concatenation of the entry lists of two objects. -/
def appendObj : JsonObj → JsonObj → JsonObj
  | .nil, b => b
  | .cons k v t, b => .cons k v (appendObj t b)

theorem appendObj_nil_left (b : JsonObj) : appendObj .nil b = b := rfl

theorem appendObj_nil_right (a : JsonObj) : appendObj a .nil = a := by
  induction a using JsonObj.entrySpineInduction with
  | nil => rfl
  | cons k v t ih => simp [appendObj, ih]

theorem appendObj_assoc (a b c : JsonObj) :
    appendObj (appendObj a b) c = appendObj a (appendObj b c) := by
  induction a using JsonObj.entrySpineInduction with
  | nil => rfl
  | cons k v t ih => simp [appendObj, ih]

theorem lookupJ_appendObj (d e : JsonObj) (k : String) :
    lookupJ (appendObj d e) k =
      (match lookupJ d k with
       | some v => some v
       | none => lookupJ e k) := by
  induction d using JsonObj.entrySpineInduction with
  | nil => simp [appendObj, lookupJ]
  | cons k' v t ih =>
    by_cases hk : k' = k
    · simp [appendObj, lookupJ, hk]
    · simp [appendObj, lookupJ, hk, ih]

theorem jsSet_eq_appendObj (d : JsonObj) (k : String) (v : Json)
    (h : lookupJ d k = none) : jsSet d k v = appendObj d (.cons k v .nil) := by
  induction d using JsonObj.entrySpineInduction with
  | nil => rfl
  | cons k' v' t ih =>
    by_cases hk : k' = k
    · subst hk
      simp [lookupJ] at h
    · simp only [lookupJ, if_neg hk] at h
      simp [jsSet, hk, appendObj, ih h]

theorem foldl_jsSet_objEntries (p : JsonObj) : ∀ (d : JsonObj),
    topNoDupObj p = true →
    (∀ k, (lookupJ p k).isSome → lookupJ d k = none) →
    (spreadEntries.objEntries p).foldl (fun acc kv => jsSet acc kv.1 kv.2) d
      = appendObj d p := by
  induction p using JsonObj.entrySpineInduction with
  | nil => intro d _ _; simp [spreadEntries.objEntries, appendObj_nil_right]
  | cons k v t ih =>
    intro d hnd hdisj
    simp only [topNoDupObj, Bool.and_eq_true] at hnd
    have hdk : lookupJ d k = none := by
      apply hdisj
      simp [lookupJ]
    simp only [spreadEntries.objEntries, List.foldl_cons]
    rw [show jsSet d k v = appendObj d (.cons k v .nil) from jsSet_eq_appendObj d k v hdk]
    rw [ih (appendObj d (.cons k v .nil)) hnd.2]
    · rw [appendObj_assoc]
      rfl
    · intro k' hk'
      rw [lookupJ_appendObj]
      have hpk' : (lookupJ (JsonObj.cons k v t) k').isSome := by
        simp only [lookupJ]
        by_cases he : k = k'
        · simp [he]
        · simpa [he] using hk'
      rw [hdisj k' hpk']
      have hne : ¬ k = k' := by
        intro he
        subst he
        rw [Option.isNone_iff_eq_none.mp hnd.1] at hk'
        simp at hk'
      simp [lookupJ, hne]

/-- A JavaScript spread of a well-formed object into an empty literal copies
it verbatim. -/
theorem spreadInto_nil_id (p : JsonObj) (h : topNoDupObj p = true) :
    spreadInto .nil (.obj p) = p := by
  simp only [spreadInto, spreadEntries_obj]
  rw [foldl_jsSet_objEntries p .nil h (fun k _ => rfl)]
  rfl

/-! ## Entry-membership lemmas -/

theorem entryMem_lookup_isSome (o : JsonObj) (k : String) (v : Json)
    (h : EntryMem k v o) : (lookupJ o k).isSome := by
  induction o using JsonObj.entrySpineInduction with
  | nil => exact absurd h id
  | cons k' v' t ih =>
    rcases h with ⟨hk, _⟩ | hm
    · simp [lookupJ, hk]
    · by_cases he : k' = k
      · simp [lookupJ, he]
      · simpa [lookupJ, he] using ih hm

theorem lookupJ_of_entryMem (o : JsonObj) (k : String) (v : Json)
    (hnd : noDupObj o = true) (h : EntryMem k v o) : lookupJ o k = some v := by
  induction o using JsonObj.entrySpineInduction with
  | nil => exact absurd h id
  | cons k' v' t ih =>
    simp only [noDupObj, Bool.and_eq_true] at hnd
    rcases h with ⟨hk, hv⟩ | hm
    · subst hk; subst hv
      simp [lookupJ]
    · have hs := entryMem_lookup_isSome t k v hm
      have hne : ¬ k' = k := by
        intro he
        subst he
        rw [Option.isNone_iff_eq_none.mp hnd.1.1] at hs
        simp at hs
      simp [lookupJ, hne, ih hnd.2 hm]

theorem noDup_of_entryMem (o : JsonObj) (k : String) (v : Json)
    (hnd : noDupObj o = true) (h : EntryMem k v o) : noDup v = true := by
  induction o using JsonObj.entrySpineInduction with
  | nil => exact absurd h id
  | cons k' v' t ih =>
    simp only [noDupObj, Bool.and_eq_true] at hnd
    rcases h with ⟨_, hv⟩ | hm
    · subst hv; exact hnd.1.2
    · exact ih hnd.2 hm

/-! ## Merge lemmas: self-merge, idempotence -/

theorem lookupJ_mergeInto_notin : ∀ (src d : JsonObj) (k : String),
    lookupJ src k = none → lookupJ (mergeInto d src) k = lookupJ d k
  | .nil, _, _, _ => rfl
  | .cons k' v rest, d, k, h => by
    have hne : ¬ k' = k := by
      intro he
      simp [lookupJ, he] at h
    simp only [lookupJ, if_neg hne] at h
    simp only [mergeInto]
    rw [lookupJ_mergeInto_notin rest _ k h, lookupJ_jsSet_ne _ _ _ _ hne]

mutual

theorem mergeJson_self : ∀ (j : Json), noDup j = true → mergeJson j j = j
  | .str _, _ => rfl
  | .num _, _ => rfl
  | .bool _, _ => rfl
  | .null, _ => rfl
  | .arr l, h => by
    simp only [noDup] at h
    simp only [mergeJson]
    rw [mergeArrs_self l h]
  | .obj o, h => by
    simp only [noDup] at h
    simp only [mergeJson]
    rw [mergeInto_of_self o o (fun k v hm =>
      ⟨lookupJ_of_entryMem o k v h hm, noDup_of_entryMem o k v h hm⟩)]

theorem mergeInto_of_self : ∀ (src d : JsonObj),
    (∀ k v, EntryMem k v src → lookupJ d k = some v ∧ noDup v = true) →
    mergeInto d src = d
  | .nil, _, _ => rfl
  | .cons k v rest, d, h => by
    have hh := h k v (Or.inl ⟨rfl, rfl⟩)
    simp only [mergeInto, hh.1]
    rw [mergeJson_self v hh.2, jsSet_lookup_self d k v hh.1]
    exact mergeInto_of_self rest d (fun k' v' hm => h k' v' (Or.inr hm))

theorem mergeArrs_self : ∀ (l : JsonArr), noDupArr l = true → mergeArrs l l = l
  | .nil, _ => rfl
  | .cons x t, h => by
    simp only [noDupArr, Bool.and_eq_true] at h
    simp only [mergeArrs]
    rw [mergeJson_self x h.1, mergeArrs_self t h.2]

end

/-- Merging a well-formed object into itself changes nothing. -/
theorem mergeInto_self (o : JsonObj) (h : noDupObj o = true) : mergeInto o o = o :=
  mergeInto_of_self o o (fun k v hm =>
    ⟨lookupJ_of_entryMem o k v h hm, noDup_of_entryMem o k v h hm⟩)

mutual

theorem mergeJson_idem : ∀ (s : Json), noDup s = true → ∀ (d : Json),
    mergeJson (mergeJson d s) s = mergeJson d s
  | .str _, _, d => by cases d <;> rfl
  | .num _, _, d => by cases d <;> rfl
  | .bool _, _, d => by cases d <;> rfl
  | .null, _, d => by cases d <;> rfl
  | .arr sl, h, d => by
    simp only [noDup] at h
    cases d with
    | arr dl => simp only [mergeJson]; rw [mergeArrs_idem sl h dl]
    | str x => simp only [mergeJson]; rw [mergeArrs_self sl h]
    | num x => simp only [mergeJson]; rw [mergeArrs_self sl h]
    | bool x => simp only [mergeJson]; rw [mergeArrs_self sl h]
    | null => simp only [mergeJson]; rw [mergeArrs_self sl h]
    | obj dobj => simp only [mergeJson]; rw [mergeArrs_self sl h]
  | .obj so, h, d => by
    simp only [noDup] at h
    cases d with
    | obj dobj => simp only [mergeJson]; rw [mergeInto_idem so h dobj]
    | str x => simp only [mergeJson]; rw [mergeInto_self so h]
    | num x => simp only [mergeJson]; rw [mergeInto_self so h]
    | bool x => simp only [mergeJson]; rw [mergeInto_self so h]
    | null => simp only [mergeJson]; rw [mergeInto_self so h]
    | arr dl => simp only [mergeJson]; rw [mergeInto_self so h]

theorem mergeInto_idem : ∀ (so : JsonObj), noDupObj so = true → ∀ (dobj : JsonObj),
    mergeInto (mergeInto dobj so) so = mergeInto dobj so
  | .nil, _, _ => rfl
  | .cons k v rest, h, dobj => by
    simp only [noDupObj, Bool.and_eq_true] at h
    obtain ⟨⟨hk, hv⟩, hrest⟩ := h
    have hkNone : lookupJ rest k = none := Option.isNone_iff_eq_none.mp hk
    cases hdk : lookupJ dobj k with
    | some old =>
      simp only [mergeInto, hdk]
      have hX : lookupJ (mergeInto (jsSet dobj k (mergeJson old v)) rest) k
          = some (mergeJson old v) := by
        rw [lookupJ_mergeInto_notin rest _ k hkNone, lookupJ_jsSet_same]
      simp only [hX]
      rw [mergeJson_idem v hv old, jsSet_lookup_self _ k _ hX]
      exact mergeInto_idem rest hrest (jsSet dobj k (mergeJson old v))
    | none =>
      simp only [mergeInto, hdk]
      have hX : lookupJ (mergeInto (jsSet dobj k v) rest) k = some v := by
        rw [lookupJ_mergeInto_notin rest _ k hkNone, lookupJ_jsSet_same]
      simp only [hX]
      rw [mergeJson_self v hv, jsSet_lookup_self _ k _ hX]
      exact mergeInto_idem rest hrest (jsSet dobj k v)

theorem mergeArrs_idem : ∀ (sl : JsonArr), noDupArr sl = true → ∀ (dl : JsonArr),
    mergeArrs (mergeArrs dl sl) sl = mergeArrs dl sl
  | .nil, _, _ => by simp only [mergeArrs]
  | .cons y ys, h, dl => by
    simp only [noDupArr, Bool.and_eq_true] at h
    cases dl with
    | nil =>
      simp only [mergeArrs]
      rw [mergeJson_self y h.1, mergeArrs_self ys h.2]
    | cons x xs =>
      simp only [mergeArrs]
      rw [mergeJson_idem y h.1 x, mergeArrs_idem ys h.2 xs]

end

/-! ## Reflexivity of the lodash equality on well-formed values -/

mutual

theorem isEqualJson_refl : ∀ (j : Json), noDup j = true → isEqualJson j j = true
  | .str s, _ => by simp [isEqualJson]
  | .num n, _ => by simp [isEqualJson]
  | .bool b, _ => by simp [isEqualJson]
  | .null, _ => by simp [isEqualJson]
  | .arr l, h => by
    simp only [noDup] at h
    simp only [isEqualJson]
    exact isEqualArrs_refl l h
  | .obj o, h => by
    simp only [noDup] at h
    simp only [isEqualJson, Bool.and_eq_true, decide_eq_true_eq]
    exact ⟨trivial, isEqualEntries_of_lookup o o (fun k v hm =>
      ⟨lookupJ_of_entryMem o k v h hm, noDup_of_entryMem o k v h hm⟩)⟩

theorem isEqualArrs_refl : ∀ (l : JsonArr), noDupArr l = true → isEqualArrs l l = true
  | .nil, _ => rfl
  | .cons x t, h => by
    simp only [noDupArr, Bool.and_eq_true] at h
    simp only [isEqualArrs, Bool.and_eq_true]
    exact ⟨isEqualJson_refl x h.1, isEqualArrs_refl t h.2⟩

theorem isEqualEntries_of_lookup : ∀ (a b : JsonObj),
    (∀ k v, EntryMem k v a → lookupJ b k = some v ∧ noDup v = true) →
    isEqualEntries a b = true
  | .nil, _, _ => rfl
  | .cons k v rest, b, h => by
    have hh := h k v (Or.inl ⟨rfl, rfl⟩)
    simp only [isEqualEntries, Bool.and_eq_true, hh.1]
    exact ⟨isEqualJson_refl v hh.2,
      isEqualEntries_of_lookup rest b (fun k' v' hm => h k' v' (Or.inr hm))⟩

end

/-! ## String-replacement lemmas for the route normalization -/

theorem isPrefixOf_append_self (pat b : List Char) :
    pat.isPrefixOf (pat ++ b) = true := by
  induction pat with
  | nil => cases b <;> rfl
  | cons c t ih => simp [List.isPrefixOf, ih]

theorem noOccBeforeB_spec (pat s : List Char) : ∀ (n : Nat),
    noOccBeforeB pat s n = true →
    ∀ i, i < n → ¬ (pat.isPrefixOf (s.drop i) = true)
  | 0, _, i, hi => absurd hi (Nat.not_lt_zero i)
  | n + 1, h, i, hi => by
    simp only [noOccBeforeB, Bool.and_eq_true, Bool.not_eq_true'] at h
    rcases Nat.lt_succ_iff_lt_or_eq.mp hi with hlt | heq
    · exact noOccBeforeB_spec pat s n h.1 i hlt
    · subst heq
      simp [h.2]

theorem map_backslash_id (s : List Char) (h : ∀ c ∈ s, c ≠ '\\') :
    (s.map fun c => if c = '\\' then '/' else c) = s := by
  induction s with
  | nil => rfl
  | cons c t ih =>
    have hc := h c (by simp)
    simp only [List.map_cons, if_neg hc]
    rw [ih (fun c' hc' => h c' (by simp [hc']))]

/-- Behavior of `String.prototype.replace`: it rewrites the first occurrence: when no
occurrence of the pattern starts before position `a.length`, the occurrence
sitting at `a.length` is the one replaced. -/
theorem replaceFirst_append (pat : List Char) (hne : pat ≠ []) (rep : List Char) :
    ∀ (a b : List Char),
      (∀ i, i < a.length → ¬ (pat.isPrefixOf ((a ++ (pat ++ b)).drop i) = true)) →
      replaceFirst (a ++ (pat ++ b)) pat rep = a ++ (rep ++ b)
  | [], b, _ => by
    cases hp : pat with
    | nil => exact absurd hp hne
    | cons p0 pt =>
      have hpre : (p0 :: pt).isPrefixOf (p0 :: (pt ++ b)) = true := by
        have := isPrefixOf_append_self (p0 :: pt) b
        simp only [List.cons_append] at this
        exact this
      have hdrop : (p0 :: (pt ++ b)).drop (p0 :: pt).length = b := by
        have := List.drop_left (p0 :: pt) b
        simp only [List.cons_append] at this
        exact this
      simp only [List.nil_append, List.cons_append, replaceFirst, List.append_eq]
      rw [if_pos hpre, hdrop]
  | c :: a', b, h => by
    have h0 := h 0 (by simp)
    rw [List.drop_zero] at h0
    simp only [List.cons_append] at h0 ⊢
    simp only [replaceFirst, if_neg h0]
    have hrec := replaceFirst_append pat hne rep a' b (fun i hi => by
      have := h (i + 1) (by simpa using Nat.succ_lt_succ hi)
      simpa [List.cons_append, List.drop_succ_cons] using this)
    rw [hrec]

/-! ## Stage strings of the route-normalization pipeline, for one directory
prefix `d` and one parameter name `p` (claim C7) -/

/-- A discovered route file `d/[p]/index.ts`. -/
def c7Input (d p : List Char) : List Char :=
  d ++ "/[".toList ++ p ++ "]/index.ts".toList

/-- The `/api/`-prefixed raw path. -/
def c7S0 (d p : List Char) : List Char := "/api/".toList ++ c7Input d p

/-- Everything before the trailing `/index`. -/
def c7A1 (d p : List Char) : List Char :=
  "/api/".toList ++ d ++ "/[".toList ++ p ++ "]".toList

/-- The path after the `/index` removal. -/
def c7S2 (d p : List Char) : List Char := c7A1 d p ++ ".ts".toList

/-- Everything before the opening bracket. -/
def c7A2 (d : List Char) : List Char := "/api/".toList ++ d ++ "/".toList

/-- Everything before the closing bracket, after `[` became `{`. -/
def c7A3 (d p : List Char) : List Char := "/api/".toList ++ d ++ ['/', '{'] ++ p

/-- The path after the bracket-to-brace replacements started. -/
def c7S3 (d p : List Char) : List Char := c7A3 d p ++ "]".toList ++ ".ts".toList

/-- The fully braced URL pattern (the expected final result). -/
def c7A4 (d p : List Char) : List Char := c7A3 d p ++ ['}']

/-- The path just before the `.ts` strip. -/
def c7S4 (d p : List Char) : List Char := c7A4 d p ++ ".ts".toList

/-- Claim C7 (amended): for a route file `d/[p]/index.ts` whose directory
prefix and parameter name contain no backslash and trip none of the earlier
first-occurrence side conditions, the derived URL pattern is
`/api/d/{p}` — the *first* `[`, the *first* `]`, the *first* `/index`
occurrence and the *first* `.ts` occurrence are rewritten (each `replace` call
uses a string pattern, which JavaScript replaces once), all backslashes become
forward slashes, and the result is `/api`-prefixed.  With several bracketed
segments only the first pair is converted (see the counterexample). -/
theorem c7_amended_first_occurrence_only (d p : List Char)
    (hd : ∀ c ∈ d, c ≠ '\\') (hp : ∀ c ∈ p, c ≠ '\\')
    (h2 : noOccBeforeB "/index".toList (c7S0 d p) (c7A1 d p).length = true)
    (h3 : noOccBeforeB ['['] (c7S2 d p) (c7A2 d).length = true)
    (h4 : noOccBeforeB [']'] (c7S3 d p) (c7A3 d p).length = true)
    (h5 : noOccBeforeB ".ts".toList (c7S4 d p) (c7A4 d p).length = true) :
    deriveUrlPattern (c7Input d p) = c7A4 d p := by
  have hall : ∀ c ∈ c7S0 d p, c ≠ '\\' := by
    intro c hc
    simp only [c7S0, c7Input] at hc
    have l1 : ∀ x ∈ "/api/".toList, x ≠ '\\' := by decide
    have l2 : ∀ x ∈ "/[".toList, x ≠ '\\' := by decide
    have l3 : ∀ x ∈ "]/index.ts".toList, x ≠ '\\' := by decide
    rcases List.mem_append.mp hc with h1 | h1
    · exact l1 c h1
    rcases List.mem_append.mp h1 with h2 | h2
    · rcases List.mem_append.mp h2 with h3 | h3
      · rcases List.mem_append.mp h3 with h4 | h4
        · exact hd c h4
        · exact l2 c h4
      · exact hp c h3
    · exact l3 c h2
  have st0 : c7S0 d p = c7A1 d p ++ ("/index".toList ++ ".ts".toList) := by
    simp only [c7S0, c7Input, c7A1]
    rw [show ("]/index.ts".toList : List Char)
        = "]".toList ++ ("/index".toList ++ ".ts".toList) from rfl]
    simp [List.append_assoc]
  have st2 : c7S2 d p = c7A2 d ++ (['['] ++ (p ++ ([']'] ++ ".ts".toList))) := by
    simp only [c7S2, c7A1, c7A2]
    rw [show ("/[".toList : List Char) = "/".toList ++ ['['] from rfl]
    rw [show ("]".toList : List Char) = [']'] from rfl]
    simp [List.append_assoc]
  have st3 : c7A2 d ++ (['{'] ++ (p ++ ([']'] ++ ".ts".toList))) = c7S3 d p := by
    simp only [c7S3, c7A3, c7A2]
    rw [show ("/".toList : List Char) = ['/'] from rfl]
    rw [show ("]".toList : List Char) = [']'] from rfl]
    simp [List.append_assoc]
  have st3' : c7S3 d p = c7A3 d p ++ ([']'] ++ ".ts".toList) := by
    simp only [c7S3]
    rw [show ("]".toList : List Char) = [']'] from rfl]
    simp [List.append_assoc]
  have st4 : c7A3 d p ++ (['}'] ++ ".ts".toList) = c7S4 d p := by
    simp only [c7S4, c7A4]
    simp [List.append_assoc]
  have st4' : c7S4 d p = c7A4 d p ++ (".ts".toList ++ []) := by
    simp [c7S4]
  simp only [deriveUrlPattern]
  rw [show ("/api/".toList ++ c7Input d p : List Char) = c7S0 d p from rfl]
  rw [map_backslash_id (c7S0 d p) hall]
  rw [st0] at h2 ⊢
  rw [replaceFirst_append "/index".toList (by decide) [] (c7A1 d p) (".ts".toList)
    (noOccBeforeB_spec _ _ _ h2)]
  rw [List.nil_append]
  rw [show (c7A1 d p ++ ".ts".toList : List Char) = c7S2 d p from rfl]
  rw [st2] at h3 ⊢
  rw [replaceFirst_append ['['] (by decide) ['{'] (c7A2 d)
    (p ++ ([']'] ++ ".ts".toList)) (noOccBeforeB_spec _ _ _ h3)]
  rw [show (c7A2 d ++ (['{'] ++ (p ++ ([']'] ++ ".ts".toList))) : List Char)
      = c7S3 d p from st3]
  rw [st3'] at h4 ⊢
  rw [replaceFirst_append [']'] (by decide) ['}'] (c7A3 d p) (".ts".toList)
    (noOccBeforeB_spec _ _ _ h4)]
  rw [show (c7A3 d p ++ (['}'] ++ ".ts".toList) : List Char) = c7S4 d p from st4]
  rw [st4'] at h5 ⊢
  rw [replaceFirst_append ".ts".toList (by decide) [] (c7A4 d p) []
    (noOccBeforeB_spec _ _ _ h5)]
  simp

/-! ## Support lemmas for the claim theorems -/

theorem noDupObj_topNoDupObj (o : JsonObj) (h : noDupObj o = true) :
    topNoDupObj o = true := by
  induction o using JsonObj.entrySpineInduction with
  | nil => rfl
  | cons k v t ih =>
    simp only [noDupObj, Bool.and_eq_true] at h
    simp only [topNoDupObj, Bool.and_eq_true]
    exact ⟨h.1.1, ih h.2⟩

theorem lookupJ_jsSet_params_responses (o : JsonObj) (v : Json) :
    lookupJ (jsSet o "parameters" v) "responses" = lookupJ o "responses" :=
  lookupJ_jsSet_ne _ _ _ _ (by decide)

/-- Whatever the handler declares, the generated operation object stores its
responses under the `responses` key: the declared ones plus `default`. -/
theorem lookupJ_genOp_responses {σ : Type} (gjs : σ → Json) (gsk : σ → List String)
    (dflt : Json) (route : String) (h : MethodHandler σ) :
    lookupJ (genOperationObject gjs gsk dflt route h) "responses"
      = some (.obj (jsSet (match h.output with
          | some out => generatedResponses gjs out
          | none => .nil) "default" dflt)) := by
  simp only [genOperationObject]
  repeat' split
  all_goals simp [lookupJ, lookupJ_jsSet_params_responses]

theorem defaultAfterMerge_untouched (d : Json) (o : Option Json)
    (h : touchesDefault o = false) : defaultAfterMerge d o = d := by
  match o with
  | none => rfl
  | some (.str _) => rfl
  | some (.num _) => rfl
  | some (.bool _) => rfl
  | some .null => rfl
  | some (.arr _) => rfl
  | some (.obj ovr) =>
    simp only [touchesDefault] at h
    simp only [defaultAfterMerge]
    cases hro : lookupJ ovr "responses" with
    | none => rfl
    | some ro =>
      rw [hro] at h
      cases ro with
      | str _ => rfl
      | num _ => rfl
      | bool _ => rfl
      | null => rfl
      | arr _ => rfl
      | obj roo =>
        simp only at h
        cases hdef : lookupJ roo "default" with
        | none => simp [hdef]
        | some dv =>
          rw [hdef] at h
          cases dv with
          | str _ => simp [hdef]
          | num _ => simp [hdef]
          | bool _ => simp [hdef]
          | null => simp [hdef]
          | arr _ => simp [hdef]
          | obj _ => simp at h

theorem synthMethod_dflt {σ : Type} (gjs : σ → Json) (gsk : σ → List String)
    (dflt : Json) (route : String) (h : MethodHandler σ) :
    (synthMethod gjs gsk dflt route h).2 = defaultAfterMerge dflt h.openApiSpecOverrides := rfl

theorem keysObj_single_jsSet (p : JsonObj) (route : String) (v : Json)
    (h : keysObj p = [route]) : keysObj (jsSet p route v) = [route] := by
  cases p with
  | nil => simp [keysObj] at h
  | cons k v' t =>
    simp only [keysObj] at h
    injection h with h1 h2
    subst h1
    simp [jsSet, keysObj, h2]

theorem lastWith_eq_none {α : Type} (p : α → Bool) (l : List α)
    (h : ∀ e ∈ l, p e = false) : lastWith p l = none := by
  induction l with
  | nil => rfl
  | cons x t ih =>
    simp only [lastWith, ih (fun e he => h e (by simp [he]))]
    simp [h x (by simp)]

theorem lookupJ_foldl_jsSet_not_mem {α : Type} (key : α → String) (val : α → Json)
    (l : List α) (init : JsonObj) (k : String) (h : ∀ e ∈ l, (key e == k) = false) :
    lookupJ (l.foldl (fun acc e => jsSet acc (key e) (val e)) init) k = lookupJ init k := by
  rw [lookupJ_foldl_jsSet, lastWith_eq_none _ _ h]

/-- Does a probe outcome define the paths key `k`? -/
def definesKey (o : ProbeOutcome) (k : String) : Bool :=
  match fragmentOf o with
  | some frag => (spreadEntries frag).any fun e => e.1 == k
  | none => false

theorem probeStep_no_fragment (paths : JsonObj) (o : ProbeOutcome)
    (h : fragmentOf o = none) : probeStep paths o = paths := by
  simp [probeStep, h]

theorem generatePathsModel_filter_aux (l : List ProbeOutcome) : ∀ (init : JsonObj),
    l.foldl probeStep init = (l.filter fun x => (fragmentOf x).isSome).foldl probeStep init := by
  induction l with
  | nil => intro init; rfl
  | cons x t ih =>
    intro init
    cases hf : fragmentOf x with
    | some frag => simp [List.filter_cons, hf, List.foldl_cons, ih]
    | none => simp [List.filter_cons, hf, List.foldl_cons, ih, probeStep_no_fragment _ _ hf]

theorem topNoDupObj_spreadInto (d : JsonObj) (v : Json) (h : topNoDupObj d = true) :
    topNoDupObj (spreadInto d v) = true :=
  topNoDupObj_foldl_jsSet (fun e : String × Json => e.1) (fun e : String × Json => e.2)
    (spreadEntries v) d h

theorem probeStep_topNoDup (paths : JsonObj) (o : ProbeOutcome) :
    topNoDupObj (probeStep paths o) = true ∨ probeStep paths o = paths := by
  cases hf : fragmentOf o with
  | none => exact Or.inr (probeStep_no_fragment _ _ hf)
  | some frag =>
    left
    simp only [probeStep, hf]
    exact topNoDupObj_spreadInto _ _ (topNoDupObj_spreadInto _ _ rfl)

theorem generatePathsModel_topNoDup (l : List ProbeOutcome) : ∀ (init : JsonObj),
    topNoDupObj init = true → topNoDupObj (l.foldl probeStep init) = true := by
  induction l with
  | nil => intro init h; exact h
  | cons x t ih =>
    intro init h
    rcases probeStep_topNoDup init x with h2 | h2
    · exact ih _ h2
    · rw [List.foldl_cons, h2]
      exact ih _ h

theorem lookupJ_probeStep_not_defines (p : JsonObj) (o : ProbeOutcome) (k : String)
    (hd : definesKey o k = false) (hnd : topNoDupObj p = true) :
    lookupJ (probeStep p o) k = lookupJ p k := by
  cases hf : fragmentOf o with
  | none => rw [probeStep_no_fragment _ _ hf]
  | some frag =>
    simp only [definesKey, hf] at hd
    simp only [probeStep, hf]
    have hinner : lookupJ (spreadInto .nil (.obj p)) k = lookupJ p k := by
      rw [lookupJ_spreadInto_obj _ _ _ hnd]
      cases lookupJ p k <;> rfl
    simp only [spreadInto]
    rw [lookupJ_foldl_jsSet_not_mem (fun e : String × Json => e.1)
      (fun e : String × Json => e.2) (spreadEntries frag) _ k]
    · exact hinner
    · intro e he
      have h2 := List.any_eq_false.mp hd
      simpa using h2 e he

theorem lookupJ_probeStep_defines (p : JsonObj) (o : ProbeOutcome) (frag : JsonObj)
    (k : String) (hf : fragmentOf o = some (.obj frag)) (hnd : topNoDupObj frag = true)
    (hk : (lookupJ frag k).isSome) :
    lookupJ (probeStep p o) k = lookupJ frag k := by
  simp only [probeStep, hf]
  rw [lookupJ_spreadInto_obj _ _ _ hnd]
  cases hl : lookupJ frag k with
  | some v => rfl
  | none => rw [hl] at hk; simp at hk

/-! ## Claim C9 -/

/-- Claim C9: every operation synthesized by `getPathsFromMethodHandlers` — before
the per-operation override merge, i.e. the `generatedOperationObject` built
with the module-level `defaultResponse` — carries a `default` response entry
equal to `defaultResponse`, whose description is the fixed unexpected-error
description and whose JSON schema describes an object with a string `message`
property, for every method handler and route, whatever the output list. -/
theorem c9_default_response_always_present {σ : Type} (gjs : σ → Json)
    (gsk : σ → List String) (route : String) (h : MethodHandler σ) :
    getJO (getJ (.obj (genOperationObject gjs gsk defaultResponse route h))
        "responses") "default" = some defaultResponse
    ∧ getJ defaultResponse "description" = some (.str unexpectedErrorDescription)
    ∧ getJO (getJO (getJ defaultResponse "content") "application/json") "schema"
      = some (.obj (.cons "type" (.str "object")
          (.cons "properties" (.obj (.cons "message"
            (.obj (.cons "type" (.str "string") .nil)) .nil)) .nil))) := by
  refine ⟨?_, rfl, rfl⟩
  show getJO (lookupJ (genOperationObject gjs gsk defaultResponse route h) "responses")
      "default" = some defaultResponse
  rw [lookupJ_genOp_responses]
  show lookupJ (jsSet _ "default" defaultResponse) "default" = some defaultResponse
  rw [lookupJ_jsSet_same]

/-! ## Claim C10 -/

theorem c10_aux {σ : Type} (gjs : σ → Json) (gsk : σ → List String) (route : String) :
    ∀ (ms : List (String × MethodHandler σ)) (acc : SynthResult),
    keysObj acc.paths = [route] →
    keysObj ((ms.foldl (fun acc m =>
      let step := synthMethod gjs gsk acc.dflt route m.2
      let cur : JsonObj :=
        match lookupJ acc.paths route with
        | some (.obj o) => o
        | _ => .nil
      (⟨jsSet acc.paths route (.obj (jsSet (spreadInto .nil (.obj cur)) m.1 step.1)),
        step.2⟩ : SynthResult)) acc).paths) = [route] := by
  intro ms
  induction ms with
  | nil => intro acc h; exact h
  | cons m t ih =>
    intro acc h
    rw [List.foldl_cons]
    exact ih _ (keysObj_single_jsSet _ _ _ h)

/-- Claim C10: the paths object returned by `getPathsFromMethodHandlers` has exactly
one key, the given route, whatever the config, handlers and module state. -/
theorem c10_single_route_key {σ : Type} (gjs : σ → Json) (gsk : σ → List String)
    (dflt0 : Json) (mh : DefineEndpointsParams σ) (route : String) :
    keysObj (getPathsFromMethodHandlers gjs gsk dflt0 mh route).paths = [route] := by
  simp only [getPathsFromMethodHandlers]
  exact c10_aux gjs gsk route (presentMethods mh) _ (by simp [jsSet, keysObj])

/-! ## Claim C2 -/

theorem c2_aux {σ : Type} (gjs : σ → Json) (gsk : σ → List String) (route : String) :
    ∀ (ms : List (String × MethodHandler σ)) (acc : SynthResult),
    (∀ m ∈ ms, touchesDefault m.2.openApiSpecOverrides = false) →
    ((ms.foldl (fun acc m =>
      let step := synthMethod gjs gsk acc.dflt route m.2
      let cur : JsonObj :=
        match lookupJ acc.paths route with
        | some (.obj o) => o
        | _ => .nil
      (⟨jsSet acc.paths route (.obj (jsSet (spreadInto .nil (.obj cur)) m.1 step.1)),
        step.2⟩ : SynthResult)) acc).dflt) = acc.dflt := by
  intro ms
  induction ms with
  | nil => intro acc _; rfl
  | cons m t ih =>
    intro acc h
    rw [List.foldl_cons]
    have hstep : (synthMethod gjs gsk acc.dflt route m.2).2 = acc.dflt := by
      rw [synthMethod_dflt]
      exact defaultAfterMerge_untouched _ _ (h m (by simp))
    rw [ih _ (fun m' hm' => h m' (by simp [hm']))]
    exact hstep

/-- Claim C2 (amended): `getPathsFromMethodHandlers` leaves the module-level
`defaultResponse` unchanged — and hence is observationally pure — whenever no
declared method carries an overrides object with an object under
`responses.default`; a method-level override of that shape is merged into the
shared `defaultResponse` in place and is observed by every later call. -/
theorem c2_amended_state_preserved {σ : Type} (gjs : σ → Json)
    (gsk : σ → List String) (dflt0 : Json) (mh : DefineEndpointsParams σ)
    (route : String)
    (h : ∀ m ∈ presentMethods mh, touchesDefault m.2.openApiSpecOverrides = false) :
    (getPathsFromMethodHandlers gjs gsk dflt0 mh route).dflt = dflt0 := by
  simp only [getPathsFromMethodHandlers]
  exact c2_aux gjs gsk route (presentMethods mh) _ h

/-- A GET-only bundle whose handler declares nothing at all. -/
def plainGetBundle : DefineEndpointsParams Json :=
  { GET := some { input := none, output := none, tags := none, openApiSpecOverrides := none } }

theorem c2_witness :
    (getPathsFromMethodHandlers (σ := Json) id (fun _ => []) defaultResponse
      plainGetBundle "/w").dflt = defaultResponse :=
  c2_amended_state_preserved id (fun _ => []) defaultResponse _ "/w" (by decide)

/-- A method-level overrides object carrying `responses.default.description`. -/
def c2Override : Json :=
  .obj (.cons "responses" (.obj (.cons "default"
    (.obj (.cons "description" (.str "Custom") .nil)) .nil)) .nil)

/-- A GET-only bundle whose handler carries `c2Override`. -/
def c2OverridingBundle : DefineEndpointsParams Json :=
  { GET := some { input := none, output := none, tags := none,
                  openApiSpecOverrides := some c2Override } }

/-- The module-level `defaultResponse` after a call processing `c2OverridingBundle`. -/
def c2MutatedDflt : Json :=
  (getPathsFromMethodHandlers (σ := Json) id (fun _ => []) defaultResponse
    c2OverridingBundle "/a").dflt

/-- Claim C2 counterexample: a first call whose GET handler overrides
`responses.default.description` mutates the module-level `defaultResponse`;
a later call for a different route with no overrides then synthesizes its
`default` response with the mutated description instead of the fixed one. -/
theorem c2_counterexample :
    c2MutatedDflt ≠ defaultResponse
    ∧ getJ c2MutatedDflt "description" = some (.str "Custom")
    ∧ getJO (getJO (getJO (getJO (some (.obj (getPathsFromMethodHandlers (σ := Json)
        id (fun _ => []) c2MutatedDflt plainGetBundle "/b").paths)) "/b") "get")
        "responses") "default" = some c2MutatedDflt
    ∧ getJ defaultResponse "description" = some (.str unexpectedErrorDescription) :=
  ⟨by decide, by decide, by decide, rfl⟩

/-! ## Claim C1 -/

/-- A GET-only bundle declaring an output list and nothing else. -/
def getOnlyBundle {σ : Type} (out : List (OutputEntry σ)) : DefineEndpointsParams σ :=
  { GET := some { input := none, output := some out, tags := none,
                  openApiSpecOverrides := none } }

/-- Claim C1 (amended): in the synthesized operation, the entry under a status key is
the one built from the *last* output entry with that status — an output entry
overwrites an earlier one whenever the statuses agree, regardless of content
type, so only the last entry's content type survives under
`responses[status].content`. -/
theorem c1_amended_last_write_wins {σ : Type} (gjs : σ → Json) (gsk : σ → List String)
    (dflt : Json) (out : List (OutputEntry σ)) (route : String) (s : String)
    (hs : s ≠ "default") :
    getJO (getJO (getJO (getJO (some (.obj (getPathsFromMethodHandlers gjs gsk dflt
        (getOnlyBundle out) route).paths)) route) "get") "responses") s
      = (match lastWith (fun e => toString e.status == s) out with
         | some e => some (respContentObj gjs e)
         | none => none) := by
  have hroute : getJO (some (.obj (getPathsFromMethodHandlers gjs gsk dflt
      (getOnlyBundle out) route).paths)) route
      = some (.obj (jsSet (spreadInto .nil (.obj .nil)) "get"
          (mergeOptSrc (.obj (genOperationObject gjs gsk dflt route
            { input := none, output := some out, tags := none,
              openApiSpecOverrides := none })) none))) := by
    simp [getPathsFromMethodHandlers, getOnlyBundle, presentMethods, getJO, getJ,
      spreadIntoOpt, synthMethod, jsSet, lookupJ]
  rw [hroute]
  show getJO (getJO (getJ (.obj (jsSet (spreadInto .nil (.obj .nil)) "get" _)) "get")
    "responses") s = _
  have hget : getJ (.obj (jsSet (spreadInto .nil (.obj .nil)) "get"
      (mergeOptSrc (.obj (genOperationObject gjs gsk dflt route
        { input := none, output := some out, tags := none,
          openApiSpecOverrides := none })) none)) ) "get"
      = some (.obj (genOperationObject gjs gsk dflt route
        { input := none, output := some out, tags := none,
          openApiSpecOverrides := none })) := by
    simp [getJ, jsSet, lookupJ, mergeOptSrc, spreadInto, spreadEntries_obj,
      spreadEntries.objEntries]
  rw [hget]
  show getJO (lookupJ (genOperationObject gjs gsk dflt route _) "responses") s = _
  rw [lookupJ_genOp_responses]
  show lookupJ (jsSet (generatedResponses gjs out) "default" dflt) s = _
  rw [lookupJ_jsSet_ne _ _ _ _ (fun he => hs he.symm)]
  simp only [generatedResponses]
  rw [lookupJ_foldl_jsSet (fun e : OutputEntry σ => toString e.status)
    (fun e : OutputEntry σ => respContentObj gjs e) out .nil s]
  cases lastWith (fun e : OutputEntry σ => toString e.status == s) out <;> rfl

theorem c1_witness :
    getJO (getJO (getJO (getJO (some (.obj (getPathsFromMethodHandlers (σ := Json)
        id (fun _ => []) defaultResponse
        (getOnlyBundle [⟨200, "application/json", .str "s1"⟩,
          ⟨200, "text/plain", .str "s2"⟩]) "/t").paths)) "/t") "get") "responses") "200"
      = (match lastWith (fun e : OutputEntry Json => toString e.status == "200")
          [⟨200, "application/json", .str "s1"⟩, ⟨200, "text/plain", .str "s2"⟩] with
         | some e => some (respContentObj id e)
         | none => none) :=
  c1_amended_last_write_wins id (fun _ => []) defaultResponse _ "/t" "200" (by decide)

/-- Claim C1 counterexample: with two output entries sharing status 200 but with
different content types, the synthesized `responses["200"].content` holds only
the second content type; the first one is gone. -/
theorem c1_counterexample :
    getJO (getJO (getJO (getJO (getJO (some (.obj (getPathsFromMethodHandlers
        (σ := Json) id (fun _ => []) defaultResponse
        (getOnlyBundle [⟨200, "application/json", .str "s1"⟩,
          ⟨200, "text/plain", .str "s2"⟩]) "/todos").paths)) "/todos") "get")
        "responses") "200") "content"
      = some (.obj (.cons "text/plain" (.obj (.cons "schema" (.str "s2") .nil)) .nil))
    ∧ getJO (getJO (getJO (getJO (getJO (getJO (some (.obj (getPathsFromMethodHandlers
        (σ := Json) id (fun _ => []) defaultResponse
        (getOnlyBundle [⟨200, "application/json", .str "s1"⟩,
          ⟨200, "text/plain", .str "s2"⟩]) "/todos").paths)) "/todos") "get")
        "responses") "200") "content") "application/json" = none :=
  ⟨by decide, by decide⟩

/-! ## Claim C6 -/

theorem c6_aux_post (k : String) : ∀ (post : List ProbeOutcome) (acc : JsonObj),
    topNoDupObj acc = true →
    (∀ o' ∈ post, definesKey o' k = false) →
    lookupJ (post.foldl probeStep acc) k = lookupJ acc k := by
  intro post
  induction post with
  | nil => intro acc _ _; rfl
  | cons x t ih =>
    intro acc hnd h
    rw [List.foldl_cons]
    have hnd2 : topNoDupObj (probeStep acc x) = true := by
      rcases probeStep_topNoDup acc x with h2 | h2
      · exact h2
      · rw [h2]; exact hnd
    rw [ih _ hnd2 (fun o' ho' => h o' (by simp [ho']))]
    exact lookupJ_probeStep_not_defines acc x k (h x (by simp)) hnd

/-- Claim C6: a probe outcome contributes to the aggregated paths only through the
guard (`status 200`, object body, `nextRestFrameworkPaths` present); dropping
every failing outcome leaves the aggregate unchanged (failures contribute
nothing and abort nothing), and each key of a successfully reporting route's
fragment survives into the aggregate — with the fragment's own value whenever
no later success redefines the key. -/
theorem c6_probe_failures_harmless (pre post : List ProbeOutcome) (o : ProbeOutcome)
    (frag : JsonObj) (k : String)
    (hfrag : fragmentOf o = some (.obj frag))
    (hnd : topNoDupObj frag = true)
    (hk : (lookupJ frag k).isSome)
    (hpost : ∀ o' ∈ post, definesKey o' k = false) :
    generatePathsModel (pre ++ o :: post)
      = generatePathsModel ((pre ++ o :: post).filter fun x => (fragmentOf x).isSome)
    ∧ lookupJ (generatePathsModel (pre ++ o :: post)) k = lookupJ frag k := by
  constructor
  · exact generatePathsModel_filter_aux _ _
  · show lookupJ ((pre ++ o :: post).foldl probeStep .nil) k = _
    rw [List.foldl_append, List.foldl_cons]
    have hPnd : topNoDupObj (List.foldl probeStep .nil pre) = true :=
      generatePathsModel_topNoDup pre .nil rfl
    have hnd2 : topNoDupObj (probeStep (List.foldl probeStep .nil pre) o) = true := by
      rcases probeStep_topNoDup (List.foldl probeStep .nil pre) o with h2 | h2
      · exact h2
      · rw [h2]; exact hPnd
    rw [c6_aux_post k post _ hnd2 hpost]
    exact lookupJ_probeStep_defines _ o frag k hfrag hnd hk

/-- A successful self-report carrying the fragment `{"/a": {}}`. -/
def c6GoodProbe : ProbeOutcome :=
  .response 200 (.obj (.cons "nextRestFrameworkPaths"
    (.obj (.cons "/a" (.obj .nil) .nil)) .nil))

/-- A non-200 self-report (ignored even though its body parses). -/
def c6BadStatusProbe : ProbeOutcome :=
  .response 404 (.obj (.cons "nextRestFrameworkPaths"
    (.obj (.cons "/a" (.str "ignored") .nil)) .nil))

/-- A 200 response whose body misses the `nextRestFrameworkPaths` field. -/
def c6MissingFieldProbe : ProbeOutcome :=
  .response 200 (.obj (.cons "other" (.obj .nil) .nil))

theorem c6_witness :
    generatePathsModel ([ProbeOutcome.failure] ++ c6GoodProbe ::
        [c6BadStatusProbe, c6MissingFieldProbe])
      = generatePathsModel (([ProbeOutcome.failure] ++ c6GoodProbe ::
          [c6BadStatusProbe, c6MissingFieldProbe]).filter
            fun x => (fragmentOf x).isSome)
    ∧ lookupJ (generatePathsModel ([ProbeOutcome.failure] ++ c6GoodProbe ::
        [c6BadStatusProbe, c6MissingFieldProbe])) "/a"
      = lookupJ (.cons "/a" (.obj .nil) .nil) "/a" :=
  c6_probe_failures_harmless [ProbeOutcome.failure] [c6BadStatusProbe, c6MissingFieldProbe]
    c6GoodProbe (.cons "/a" (.obj .nil) .nil) "/a" (by decide) (by decide) (by decide)
    (by decide)

/-! ## Claim C3 -/

/-- Claim C3 (amended): in production mode every access attempts the file read: the
served document is the file content parsed on *this* access when the read
succeeds, and the previously cached document when it fails; no write, no log,
no config change, and complete independence from the probe results (no route
probing, no regeneration). -/
theorem c3_amended_prod_rereads (cfg : Config) (outcomes outcomes' : List ProbeOutcome)
    (fs : Option Json) (st : GlobalState) :
    (getOrCreateOpenApiSpec true cfg outcomes fs st).ret
        = (match fs with
           | some j => some j
           | none => st.openApiSpec)
    ∧ (getOrCreateOpenApiSpec true cfg outcomes fs st).wrote = false
    ∧ (getOrCreateOpenApiSpec true cfg outcomes fs st).logs = []
    ∧ (getOrCreateOpenApiSpec true cfg outcomes fs st).config = cfg
    ∧ (getOrCreateOpenApiSpec true cfg outcomes fs st).fs = fs
    ∧ getOrCreateOpenApiSpec true cfg outcomes fs st
        = getOrCreateOpenApiSpec true cfg outcomes' fs st := by
  cases fs <;> simp [getOrCreateOpenApiSpec]

/-- Claim C3 counterexample: two production accesses in one process lifetime; the
file content changes in between, and the second access serves the new content
instead of the document read on first access — the file is re-read on every
access, not only on the first. -/
theorem c3_counterexample :
    (getOrCreateOpenApiSpec true {} [] (some (.str "A")) {}).ret = some (.str "A")
    ∧ (getOrCreateOpenApiSpec true {} [] (some (.str "B"))
        (getOrCreateOpenApiSpec true {} [] (some (.str "A")) {}).state).ret
      = some (.str "B")
    ∧ (getOrCreateOpenApiSpec true {} [] (some (.str "B"))
        (getOrCreateOpenApiSpec true {} [] (some (.str "A")) {}).state).ret
      ≠ (getOrCreateOpenApiSpec true {} [] (some (.str "A")) {}).ret := by
  refine ⟨rfl, rfl, by decide⟩

/-! ## Claim C4 -/

/-- Claim C4 (amended): whenever the persisted `openapi.json` is readable at the
start of the pass, the persisted file and `global.openApiSpec` are equal after
every development-mode pass — if they differ after the initial read, a write
occurs before the pass completes.  (When the initial read fails, the file may
stay absent while the cache keeps an equal document and no write occurs; see
the counterexample.) -/
theorem c4_amended_file_cache_agree (cfg : Config) (outcomes : List ProbeOutcome)
    (st : GlobalState) (j : Json) :
    (getOrCreateOpenApiSpec false cfg outcomes (some j) st).fs
      = (getOrCreateOpenApiSpec false cfg outcomes (some j) st).state.openApiSpec := by
  by_cases he : isEqualOpt (some j) (mkNewSpec cfg (generatePathsModel outcomes)) = true
  · simp [getOrCreateOpenApiSpec, he]
  · simp [getOrCreateOpenApiSpec, he]

/-- Claim C4 counterexample: the file is missing, the cache holds exactly the
document the pass regenerates — the pass performs no write and completes with
the file still absent while the cache holds a document: persisted file and
in-memory document differ, and no write occurred. -/
theorem c4_counterexample :
    (getOrCreateOpenApiSpec false {} [] none
      { openApiSpec := some (mkNewSpec {} (generatePathsModel [])),
        apiSpecGeneratedLogged := true }).wrote = false
    ∧ (getOrCreateOpenApiSpec false {} [] none
      { openApiSpec := some (mkNewSpec {} (generatePathsModel [])),
        apiSpecGeneratedLogged := true }).fs = none
    ∧ (getOrCreateOpenApiSpec false {} [] none
      { openApiSpec := some (mkNewSpec {} (generatePathsModel [])),
        apiSpecGeneratedLogged := true }).state.openApiSpec
      = some (mkNewSpec {} (generatePathsModel [])) := by
  refine ⟨by decide, by decide, by decide⟩

/-! ## Claim C8 -/

/-- Claim C8 (amended): the configuration survives the pass untouched except in one
spot: in development mode, when the static overrides carry an object under
`paths`, the aggregated paths are merged into that very object in place.  All
named configuration fields are preserved, production mode never touches the
config, a config without a `paths` override object is returned unchanged, and
every overrides key other than `paths` keeps its value. -/
theorem c8_amended_config_mutation_scope (isProd : Bool) (cfg : Config)
    (outcomes : List ProbeOutcome) (fs : Option Json) (st : GlobalState)
    (k : String) (hk : k ≠ "paths") :
    (getOrCreateOpenApiSpec isProd cfg outcomes fs st).config.apiRoutesPath
        = cfg.apiRoutesPath
    ∧ (getOrCreateOpenApiSpec isProd cfg outcomes fs st).config.openApiJsonPath
        = cfg.openApiJsonPath
    ∧ (getOrCreateOpenApiSpec isProd cfg outcomes fs st).config.openApiYamlPath
        = cfg.openApiYamlPath
    ∧ (getOrCreateOpenApiSpec isProd cfg outcomes fs st).config.swaggerUiPath
        = cfg.swaggerUiPath
    ∧ (isProd = true → (getOrCreateOpenApiSpec isProd cfg outcomes fs st).config = cfg)
    ∧ (overridePaths cfg = none →
        (getOrCreateOpenApiSpec isProd cfg outcomes fs st).config = cfg)
    ∧ getJO (getOrCreateOpenApiSpec isProd cfg outcomes fs st).config.openApiSpecOverrides k
        = getJO cfg.openApiSpecOverrides k := by
  have hconfig : (getOrCreateOpenApiSpec isProd cfg outcomes fs st).config
      = if isProd then cfg else configAfterPass cfg (generatePathsModel outcomes) := by
    simp only [getOrCreateOpenApiSpec]
    cases isProd with
    | true => simp
    | false =>
      simp only [Bool.false_eq_true, if_false]
      split <;> rfl
  cases isProd with
  | true =>
    rw [hconfig]
    simp
  | false =>
    rw [hconfig]
    simp only [if_neg (by simp : ¬ (false = true))]
    cases hovr : cfg.openApiSpecOverrides with
    | none => simp [configAfterPass, hovr]
    | some ovr =>
      cases ovr with
      | obj o =>
        cases hpth : lookupJ o "paths" with
        | none => simp [configAfterPass, hovr, hpth, overridePaths]
        | some pv =>
          cases pv with
          | obj op =>
            simp only [configAfterPass, hovr, hpth]
            refine ⟨trivial, trivial, trivial, trivial, by simp, ?_, ?_⟩
            · intro hnone
              simp [overridePaths, hovr, hpth] at hnone
            · simp only [getJO, hovr, getJ]
              exact lookupJ_jsSet_ne _ _ _ _ (fun he => hk he.symm)
          | str x => simp [configAfterPass, hovr, hpth]
          | num x => simp [configAfterPass, hovr, hpth]
          | bool x => simp [configAfterPass, hovr, hpth]
          | null => simp [configAfterPass, hovr, hpth]
          | arr x => simp [configAfterPass, hovr, hpth]
      | str x => simp [configAfterPass, hovr]
      | num x => simp [configAfterPass, hovr]
      | bool x => simp [configAfterPass, hovr]
      | null => simp [configAfterPass, hovr]
      | arr x => simp [configAfterPass, hovr]

/-- The configuration of the C8 counterexample: static overrides with an
`info` key and a `paths` object owning `/x`. -/
def c8Config : Config :=
  { openApiSpecOverrides := some (.obj (.cons "info" (.str "i")
      (.cons "paths" (.obj (.cons "/x" (.obj .nil) .nil)) .nil))) }

/-- A probe success reporting the fragment `{"/y": {}}`. -/
def c8Probe : ProbeOutcome :=
  .response 200 (.obj (.cons "nextRestFrameworkPaths"
    (.obj (.cons "/y" (.obj .nil) .nil)) .nil))

/-- Claim C8 counterexample: after one development pass the config object is no
longer equal to the one passed in — the aggregated `/y` entry has been merged
into its `openApiSpecOverrides.paths` object in place. -/
theorem c8_counterexample :
    (getOrCreateOpenApiSpec false c8Config [c8Probe] none {}).config ≠ c8Config
    ∧ getJO (getJO ((getOrCreateOpenApiSpec false c8Config [c8Probe] none
        {}).config.openApiSpecOverrides) "paths") "/y" = some (.obj .nil)
    ∧ getJO (getJO c8Config.openApiSpecOverrides "paths") "/y" = none := by
  refine ⟨by decide, by decide, by decide⟩

theorem c8_witness :
    getJO (getOrCreateOpenApiSpec false c8Config [c8Probe] none
        {}).config.openApiSpecOverrides "info"
      = getJO c8Config.openApiSpecOverrides "info" :=
  (c8_amended_config_mutation_scope false c8Config [c8Probe] none {} "info"
    (by decide)).2.2.2.2.2.2

/-! ## Claim C5 -/

/-- Re-running the spec computation on the mutated configuration produces the
same document: the only mutated spot is the `paths` override object, into
which the very same generated paths were already merged, and `lodash.merge`
is idempotent on well-formed values. -/
theorem mkNewSpec_after_pass (cfg : Config) (paths : JsonObj)
    (hO : configWF cfg = true) (hP : noDup (.obj paths) = true) :
    mkNewSpec (configAfterPass cfg paths) paths = mkNewSpec cfg paths := by
  cases hovr : cfg.openApiSpecOverrides with
  | none => simp [configAfterPass, hovr]
  | some ovr =>
    cases ovr with
    | str x => simp [configAfterPass, hovr]
    | num x => simp [configAfterPass, hovr]
    | bool x => simp [configAfterPass, hovr]
    | null => simp [configAfterPass, hovr]
    | arr x => simp [configAfterPass, hovr]
    | obj o =>
      cases hpth : lookupJ o "paths" with
      | none => simp [configAfterPass, hovr, hpth]
      | some pv =>
        cases pv with
        | str x => simp [configAfterPass, hovr, hpth]
        | num x => simp [configAfterPass, hovr, hpth]
        | bool x => simp [configAfterPass, hovr, hpth]
        | null => simp [configAfterPass, hovr, hpth]
        | arr x => simp [configAfterPass, hovr, hpth]
        | obj op =>
          have hndo : noDupObj o = true := by
            simp only [configWF, hovr] at hO
            exact hO
          have htnd : topNoDupObj o = true := noDupObj_topNoDupObj o hndo
          have htnd2 : topNoDupObj (jsSet o "paths"
              (mergeJson (.obj op) (.obj paths))) = true :=
            topNoDupObj_jsSet o _ _ htnd
          simp only [configAfterPass, hovr, hpth]
          simp only [mkNewSpec, overridePaths, hovr, spreadIntoOpt]
          rw [spreadInto_nil_id _ htnd2, spreadInto_nil_id o htnd]
          rw [lookupJ_jsSet_same, hpth]
          simp only [mergeOptDest]
          rw [mergeJson_idem (.obj paths) hP (.obj op)]
          rw [jsSet_comm_mem o "paths" (mergeJson (.obj op) (.obj paths))
            "openapi" (.str OPEN_API_VERSION) (by rw [hpth]; rfl) (by decide)]
          rw [jsSet_jsSet_same]

/-- Claim C5 (amended): a second development pass with the same probe results
(performed on the config object, file and global state the first pass left
behind) never rewrites the persisted file and emits no log line at all; the
change comparison is insensitive to object key order, but it is sensitive to
array element order — an array-order-only difference does trigger a rewrite
(see the counterexample). -/
theorem c5_amended_second_pass_quiet (cfg : Config) (outcomes : List ProbeOutcome)
    (fs : Option Json) (st : GlobalState)
    (hO : configWF cfg = true)
    (hP : noDup (.obj (generatePathsModel outcomes)) = true)
    (hM : noDup (mkNewSpec cfg (generatePathsModel outcomes)) = true) :
    (getOrCreateOpenApiSpec false (getOrCreateOpenApiSpec false cfg outcomes fs st).config
      outcomes (getOrCreateOpenApiSpec false cfg outcomes fs st).fs
      (getOrCreateOpenApiSpec false cfg outcomes fs st).state).wrote = false
    ∧ (getOrCreateOpenApiSpec false (getOrCreateOpenApiSpec false cfg outcomes fs st).config
      outcomes (getOrCreateOpenApiSpec false cfg outcomes fs st).fs
      (getOrCreateOpenApiSpec false cfg outcomes fs st).state).logs = []
    ∧ (∀ (k1 k2 : String) (v1 v2 : Json), k1 ≠ k2 → noDup v1 = true → noDup v2 = true →
        isEqualJson (.obj (.cons k1 v1 (.cons k2 v2 .nil)))
          (.obj (.cons k2 v2 (.cons k1 v1 .nil))) = true) := by
  have hidem : mkNewSpec (configAfterPass cfg (generatePathsModel outcomes))
      (generatePathsModel outcomes) = mkNewSpec cfg (generatePathsModel outcomes) :=
    mkNewSpec_after_pass cfg _ hO hP
  have hrefl : isEqualJson (mkNewSpec cfg (generatePathsModel outcomes))
      (mkNewSpec cfg (generatePathsModel outcomes)) = true :=
    isEqualJson_refl _ hM
  have hmain : (getOrCreateOpenApiSpec false
        (getOrCreateOpenApiSpec false cfg outcomes fs st).config outcomes
        (getOrCreateOpenApiSpec false cfg outcomes fs st).fs
        (getOrCreateOpenApiSpec false cfg outcomes fs st).state).wrote = false
      ∧ (getOrCreateOpenApiSpec false
        (getOrCreateOpenApiSpec false cfg outcomes fs st).config outcomes
        (getOrCreateOpenApiSpec false cfg outcomes fs st).fs
        (getOrCreateOpenApiSpec false cfg outcomes fs st).state).logs = [] := by
    cases fs with
    | some j =>
      by_cases he : isEqualJson j (mkNewSpec cfg (generatePathsModel outcomes)) = true
      · have h1 : getOrCreateOpenApiSpec false cfg outcomes (some j) st
            = { config := configAfterPass cfg (generatePathsModel outcomes),
                state := { openApiSpec := some j, apiSpecGeneratedLogged := true },
                fs := some j, wrote := false,
                logs := if st.apiSpecGeneratedLogged then [] else [LogLine.upToDate],
                ret := some j } := by
          simp [getOrCreateOpenApiSpec, isEqualOpt, he]
        rw [h1]
        simp [getOrCreateOpenApiSpec, isEqualOpt, hidem, he]
      · have h1 : getOrCreateOpenApiSpec false cfg outcomes (some j) st
            = { config := configAfterPass cfg (generatePathsModel outcomes),
                state := { openApiSpec := some (mkNewSpec cfg (generatePathsModel outcomes)),
                           apiSpecGeneratedLogged := true },
                fs := some (mkNewSpec cfg (generatePathsModel outcomes)), wrote := true,
                logs := LogLine.specChanged ::
                  (if st.apiSpecGeneratedLogged then [] else [LogLine.generated]),
                ret := some (mkNewSpec cfg (generatePathsModel outcomes)) } := by
          simp [getOrCreateOpenApiSpec, isEqualOpt, he]
        rw [h1]
        simp [getOrCreateOpenApiSpec, isEqualOpt, hidem, hrefl]
    | none =>
      by_cases he : isEqualOpt st.openApiSpec (mkNewSpec cfg (generatePathsModel outcomes))
          = true
      · have h1 : getOrCreateOpenApiSpec false cfg outcomes none st
            = { config := configAfterPass cfg (generatePathsModel outcomes),
                state := { openApiSpec := st.openApiSpec, apiSpecGeneratedLogged := true },
                fs := none, wrote := false,
                logs := if st.apiSpecGeneratedLogged then [] else [LogLine.upToDate],
                ret := st.openApiSpec } := by
          simp [getOrCreateOpenApiSpec, he]
        rw [h1]
        simp [getOrCreateOpenApiSpec, hidem, he]
      · have h1 : getOrCreateOpenApiSpec false cfg outcomes none st
            = { config := configAfterPass cfg (generatePathsModel outcomes),
                state := { openApiSpec := some (mkNewSpec cfg (generatePathsModel outcomes)),
                           apiSpecGeneratedLogged := true },
                fs := some (mkNewSpec cfg (generatePathsModel outcomes)), wrote := true,
                logs := LogLine.noSpecFound ::
                  (if st.apiSpecGeneratedLogged then [] else [LogLine.generated]),
                ret := some (mkNewSpec cfg (generatePathsModel outcomes)) } := by
          simp [getOrCreateOpenApiSpec, he]
        rw [h1]
        simp [getOrCreateOpenApiSpec, isEqualOpt, hidem, hrefl]
  refine ⟨hmain.1, hmain.2, ?_⟩
  intro k1 k2 v1 v2 hne h1 h2
  have hne' : ¬ k2 = k1 := fun e => hne e.symm
  simp [isEqualJson, isEqualEntries, lookupJ, lenObj, hne', hne,
    isEqualJson_refl v1 h1, isEqualJson_refl v2 h2]

/-- A probe success whose fragment declares `tags: ["x", "y"]`. -/
def c5Probe : ProbeOutcome :=
  .response 200 (.obj (.cons "nextRestFrameworkPaths"
    (.obj (.cons "/a" (.obj (.cons "get" (.obj (.cons "tags"
      (.arr (.cons (.str "x") (.cons (.str "y") .nil))) .nil)) .nil)) .nil)) .nil))

/-- The persisted document matching `c5Probe`, except that the `tags` array is
stored in the opposite order `["y", "x"]` — a difference with no semantic
content for OpenAPI tags. -/
def c5FileDoc : Json :=
  .obj (.cons "openapi" (.str OPEN_API_VERSION)
    (.cons "paths" (.obj (.cons "/a" (.obj (.cons "get" (.obj (.cons "tags"
      (.arr (.cons (.str "y") (.cons (.str "x") .nil))) .nil)) .nil)) .nil)) .nil))

/-- Claim C5 counterexample: the cached/persisted document and the freshly computed
one differ only in the order of one `tags` array, yet the comparison reports
a change, the file is rewritten and the change log line is emitted. -/
theorem c5_counterexample :
    (getOrCreateOpenApiSpec false {} [c5Probe] (some c5FileDoc)
      { openApiSpec := none, apiSpecGeneratedLogged := true }).wrote = true
    ∧ (getOrCreateOpenApiSpec false {} [c5Probe] (some c5FileDoc)
      { openApiSpec := none, apiSpecGeneratedLogged := true }).logs
      = [LogLine.specChanged]
    ∧ mkNewSpec {} (generatePathsModel [c5Probe])
      = .obj (.cons "openapi" (.str OPEN_API_VERSION)
          (.cons "paths" (.obj (.cons "/a" (.obj (.cons "get" (.obj (.cons "tags"
            (.arr (.cons (.str "x") (.cons (.str "y") .nil))) .nil)) .nil)) .nil)) .nil))
    ∧ isEqualJson c5FileDoc (mkNewSpec {} (generatePathsModel [c5Probe])) = false := by
  refine ⟨by decide, by decide, by decide, by decide⟩

theorem c5_witness :
    (getOrCreateOpenApiSpec false
      (getOrCreateOpenApiSpec false {} [c5Probe] none {}).config [c5Probe]
      (getOrCreateOpenApiSpec false {} [c5Probe] none {}).fs
      (getOrCreateOpenApiSpec false {} [c5Probe] none {}).state).wrote = false
    ∧ (getOrCreateOpenApiSpec false
      (getOrCreateOpenApiSpec false {} [c5Probe] none {}).config [c5Probe]
      (getOrCreateOpenApiSpec false {} [c5Probe] none {}).fs
      (getOrCreateOpenApiSpec false {} [c5Probe] none {}).state).logs = [] :=
  ⟨(c5_amended_second_pass_quiet {} [c5Probe] none {} (by decide) (by decide)
      (by decide)).1,
   (c5_amended_second_pass_quiet {} [c5Probe] none {} (by decide) (by decide)
      (by decide)).2.1⟩

theorem c7_witness :
    deriveUrlPattern (c7Input "users".toList "id".toList)
      = c7A4 "users".toList "id".toList :=
  c7_amended_first_occurrence_only "users".toList "id".toList (by decide) (by decide)
    (by decide) (by decide) (by decide) (by decide)

/-- Claim C7 counterexample: with two bracketed dynamic segments only the first
bracket pair is rewritten to braces; the derived pattern still contains the
raw `[postId]` segment, so the claim that *every* bracket pair is replaced is
false. -/
theorem c7_counterexample :
    deriveUrlPattern "users/[id]/posts/[postId].ts".toList
      = "/api/users/{id}/posts/[postId]".toList
    ∧ '[' ∈ deriveUrlPattern "users/[id]/posts/[postId].ts".toList := by
  refine ⟨rfl, by decide⟩

end OpenApi